import Mathlib

/-!
Verification of the amcheck index-integrity checker against its specification.

This file gives a shallow embedding, in Lean, of the components of the
amcheck sources that the specification's claims are about:

* `bloomfilter.c` — the minimal Bloom filter (`bloom_create`,
  `bloom_add_element`, `bloom_lacks_element`, `my_bloom_power`, `optimal_k`,
  `k_hashes`, `sdbmhash`);
* `verify_nbtree.c` — the per-page invariant checker
  (`bt_target_page_check`), the level walker
  (`bt_check_level_from_leftmost`) and the heap-presence callback
  (`bt_tuple_present_callback`);
* `verify_gist.c` — the GiST graph walker (`gist_check_keys_consistency`,
  `gist_check_internal_page`).

Machine integers are modelled as `Nat` with explicit reduction modulo
`2 ^ 32` where the C code relies on `uint32` wrap-around.  External
collaborators (the PostgreSQL hash function `hash_any`, the opclass
comparator reached through `_bt_compare`, `index_form_tuple`,
`TransactionIdPrecedes`, and the per-child key-containment test of GiST)
are opaque parameters of the embedded functions, exactly as they are
opaque to the C code under verification.  C functions that abort with
`ereport(ERROR, ...)` are modelled as functions into `Except`.
-/

/-- BITS_PER_BYTE from the PostgreSQL headers. -/
def BITS_PER_BYTE : Nat := 8

/-- MAX_HASH_FUNCS from bloomfilter.c. -/
def MAX_HASH_FUNCS : Nat := 10

/-- The modulus of C `uint32` arithmetic. -/
def U32 : Nat := 4294967296

/-- The `bloom_filter` struct of bloomfilter.c.  The flexible array member
`bitset` is a list of bytes; `bitset_bits` is its size in bits. -/
structure bloom_filter where
  k_hash_funcs : Nat
  seed : Nat
  bitset_bits : Nat
  bitset : List Nat
deriving Repr, DecidableEq

/-- `sdbmhash` from bloomfilter.c: `hash = (*elem) + (hash << 6) + (hash << 16) - hash`
over `uint32`, folded over the bytes of the element.  The shifts, the
additions and the subtraction are `uint32` operations, hence the explicit
reductions modulo `2 ^ 32`; `U32 - hash` stands for the two's-complement
negation `- hash`. -/
def sdbmhash (elem : List Nat) : Nat :=
  elem.foldl
    (fun hash b =>
      (b % 256 + hash * 64 % U32 + hash * 65536 % U32 + (U32 - hash % U32)) % U32)
    0

/-- The `for (i = 1; i < k_hash_funcs; i++)` loop of `k_hashes`:
produces the hash values `hashes[1] .. hashes[k-1]`.  The first argument
of each step is the remaining iteration count, then the loop index `i`. -/
def k_hashes_loop (bitset_bits : Nat) : Nat → Nat → Nat → Nat → List Nat
  | 0, _, _, _ => []
  | n + 1, i, hasha, hashb =>
    let hasha2 := (hasha + hashb) % U32 % bitset_bits
    let hashb2 := (hashb + i) % U32 % bitset_bits
    hasha2 :: k_hashes_loop bitset_bits n (i + 1) hasha2 hashb2

/-- `k_hashes` from bloomfilter.c.  `hash_any` is PostgreSQL's generic hash
function, an external collaborator, passed as an opaque parameter.  The
returned list holds `hashes[0] .. hashes[k_hash_funcs - 1]`, i.e. exactly
the values that `bloom_add_element` and `bloom_lacks_element` consume. -/
def k_hashes (hash_any : List Nat → Nat) (filter : bloom_filter) (elem : List Nat) :
    List Nat :=
  let hasha := (hash_any elem + filter.seed) % U32 % filter.bitset_bits
  let hashb := (if 1 < filter.k_hash_funcs then sdbmhash elem else 0) % filter.bitset_bits
  match filter.k_hash_funcs with
  | 0 => []
  | k + 1 => hasha :: k_hashes_loop filter.bitset_bits k 1 hasha hashb

/-- One step of the bit-setting loop of `bloom_add_element`:
`filter->bitset[hashes[i] >> 3] |= 1 << (hashes[i] & 7)`.
`List.set` on an out-of-range byte index is a no-op; the in-range theorems
below show created filters never index out of range. -/
def bloom_setbit (bitset : List Nat) (pos : Nat) : List Nat :=
  bitset.set (pos >>> 3) (bitset.getD (pos >>> 3) 0 ||| (1 <<< (pos &&& 7)))

/-- The bit probe of `bloom_lacks_element`:
`filter->bitset[hashes[i] >> 3] & (1 << (hashes[i] & 7))`, as a `Bool`. -/
def bloom_getbit (bitset : List Nat) (pos : Nat) : Bool :=
  bitset.getD (pos >>> 3) 0 &&& (1 <<< (pos &&& 7)) != 0

/-- `bloom_add_element` from bloomfilter.c. -/
def bloom_add_element (hash_any : List Nat → Nat) (filter : bloom_filter)
    (elem : List Nat) : bloom_filter :=
  { filter with bitset := (k_hashes hash_any filter elem).foldl bloom_setbit filter.bitset }

/-- `bloom_lacks_element` from bloomfilter.c: true iff some probed bit is
unset (the C loop returns `true` at the first unset bit). -/
def bloom_lacks_element (hash_any : List Nat → Nat) (filter : bloom_filter)
    (elem : List Nat) : Bool :=
  (k_hashes hash_any filter elem).any (fun pos => !bloom_getbit filter.bitset pos)

/-- The `while (target_bitset_bits > 0 && bloom_power < 32)` loop of
`my_bloom_power`. -/
def my_bloom_power_loop (target : Nat) (bloom_power : Int) : Int :=
  if h : 0 < target ∧ bloom_power < 32 then
    my_bloom_power_loop (target / 2) (bloom_power + 1)
  else bloom_power
termination_by target
decreasing_by exact Nat.div_lt_self h.1 one_lt_two

/-- `my_bloom_power` from bloomfilter.c.  The argument is `int64`; a
non-positive argument never enters the loop, which `Int.toNat` mirrors. -/
def my_bloom_power (target_bitset_bits : Int) : Int :=
  my_bloom_power_loop target_bitset_bits.toNat (-1)

/-- `optimal_k` from bloomfilter.c:
`k = round(log(2.0) * bitset_bits / total_elems)`, clamped to
`[1, MAX_HASH_FUNCS]`.  The C `double` computation is modelled by exact
real arithmetic (`Real.log`); C's `round` rounds a nonnegative half away
from zero, i.e. up, matching Lean's `round`. -/
noncomputable def optimal_k (bitset_bits : Nat) (total_elems : Nat) : Int :=
  let k : Int := round (Real.log 2 * (bitset_bits : Real) / (total_elems : Real))
  max 1 (min k (MAX_HASH_FUNCS : Int))

/-- `bloom_create` from bloomfilter.c.  `total_elems` is the (nonnegative)
`int64` element estimate, `bloom_work_mem` the `int` memory budget in KB.
`palloc0` yields an all-zeroes bitset of `bitset_bits / 8` bytes. -/
noncomputable def bloom_create (total_elems : Nat) (bloom_work_mem : Int) (seed : Nat) :
    bloom_filter :=
  let bitset_bytes : Int := min (bloom_work_mem * 1024) ((total_elems : Int) * 2)
  let bitset_bytes2 : Int := max (1024 * 1024) bitset_bytes
  let bloom_power : Int := my_bloom_power (bitset_bytes2 * (BITS_PER_BYTE : Int))
  let bitset_bits : Nat := 2 ^ bloom_power.toNat
  { k_hash_funcs := (optimal_k bitset_bits total_elems).toNat
    seed := seed
    bitset_bits := bitset_bits
    bitset := List.replicate (bitset_bits / BITS_PER_BYTE) 0 }

/-! ### Basic facts about the Bloom filter embedding -/

/-- Geometry well-formedness of a filter: a positive bit count that is
exactly eight times the byte count of the allocated bitset. -/
def bloom_wf (filter : bloom_filter) : Prop :=
  0 < filter.bitset_bits ∧ filter.bitset.length * 8 = filter.bitset_bits

theorem k_hashes_loop_lt (bitset_bits : Nat) (hb : 0 < bitset_bits) :
    ∀ n i hasha hashb, ∀ pos ∈ k_hashes_loop bitset_bits n i hasha hashb,
      pos < bitset_bits := by
  intro n
  induction n with
  | zero => intro i ha hb2 pos hpos; simp [k_hashes_loop] at hpos
  | succ n ih =>
    intro i ha hb2 pos hpos
    simp only [k_hashes_loop, List.mem_cons] at hpos
    rcases hpos with h | h
    · subst h; exact Nat.mod_lt _ hb
    · exact ih _ _ _ pos h

theorem k_hashes_lt (hash_any : List Nat → Nat) (filter : bloom_filter)
    (hb : 0 < filter.bitset_bits) (elem : List Nat) :
    ∀ pos ∈ k_hashes hash_any filter elem, pos < filter.bitset_bits := by
  intro pos hpos
  unfold k_hashes at hpos
  rcases hk : filter.k_hash_funcs with _ | k
  · rw [hk] at hpos; simp at hpos
  · rw [hk] at hpos
    simp only [List.mem_cons] at hpos
    rcases hpos with h | h
    · subst h; exact Nat.mod_lt _ hb
    · exact k_hashes_loop_lt _ hb _ _ _ _ pos h

theorem shiftRight_three (pos : Nat) : pos >>> 3 = pos / 8 := by
  rw [Nat.shiftRight_eq_div_pow]

theorem and_shift_ne_zero (x i : Nat) : (x &&& (1 <<< i) != 0) = x.testBit i := by
  rw [Nat.shiftLeft_eq, one_mul, Nat.and_two_pow]
  cases h : x.testBit i with
  | false => simp
  | true => simp [(Nat.two_pow_pos i).ne']

theorem bloom_getbit_setbit_mono (bitset : List Nat) (p q : Nat)
    (h : bloom_getbit bitset q = true) :
    bloom_getbit (bloom_setbit bitset p) q = true := by
  unfold bloom_getbit at h ⊢
  unfold bloom_setbit
  rw [and_shift_ne_zero] at h ⊢
  simp only [List.getD_eq_getElem?_getD] at h ⊢
  by_cases hidx : p >>> 3 = q >>> 3
  · rw [← hidx] at h ⊢
    by_cases hlen : p >>> 3 < bitset.length
    · rw [List.getElem?_set_self hlen]
      simp only [Option.getD_some]
      rw [Nat.testBit_or, h]
      simp
    · rw [List.set_eq_of_length_le (Nat.le_of_not_lt hlen)]
      exact h
  · rw [List.getElem?_set_ne hidx]
    exact h

theorem bloom_getbit_setbit_self (bitset : List Nat) (p : Nat)
    (hlen : p >>> 3 < bitset.length) :
    bloom_getbit (bloom_setbit bitset p) p = true := by
  unfold bloom_getbit bloom_setbit
  rw [and_shift_ne_zero, List.getD_eq_getElem?_getD, List.getElem?_set_self hlen]
  simp [Nat.testBit_or, Nat.shiftLeft_eq, Nat.testBit_two_pow_self]

theorem length_foldl_setbit (L : List Nat) :
    ∀ bitset : List Nat, (L.foldl bloom_setbit bitset).length = bitset.length := by
  induction L with
  | nil => intro bitset; rfl
  | cons x rest ih =>
    intro bitset
    rw [List.foldl_cons, ih]
    simp [bloom_setbit]

theorem bloom_getbit_foldl_mono (L : List Nat) :
    ∀ bitset q, bloom_getbit bitset q = true →
      bloom_getbit (L.foldl bloom_setbit bitset) q = true := by
  induction L with
  | nil => intro bitset q h; exact h
  | cons x rest ih =>
    intro bitset q h
    exact ih _ _ (bloom_getbit_setbit_mono _ _ _ h)

theorem bloom_getbit_foldl_self (L : List Nat) :
    ∀ bitset q, q ∈ L → q >>> 3 < bitset.length →
      bloom_getbit (L.foldl bloom_setbit bitset) q = true := by
  induction L with
  | nil => intro bitset q hq; cases hq
  | cons x rest ih =>
    intro bitset q hq hlen
    rw [List.foldl_cons]
    rcases List.mem_cons.mp hq with h | h
    · subst h
      exact bloom_getbit_foldl_mono _ _ _ (bloom_getbit_setbit_self _ _ hlen)
    · exact ih _ _ h (by simpa [bloom_setbit] using hlen)

@[simp] theorem bloom_add_element_bitset (hash_any : List Nat → Nat)
    (filter : bloom_filter) (elem : List Nat) :
    (bloom_add_element hash_any filter elem).bitset
      = (k_hashes hash_any filter elem).foldl bloom_setbit filter.bitset := rfl

@[simp] theorem bloom_add_element_bits (hash_any : List Nat → Nat)
    (filter : bloom_filter) (elem : List Nat) :
    (bloom_add_element hash_any filter elem).bitset_bits = filter.bitset_bits := rfl

theorem k_hashes_add (hash_any : List Nat → Nat) (filter : bloom_filter)
    (x elem : List Nat) :
    k_hashes hash_any (bloom_add_element hash_any filter x) elem
      = k_hashes hash_any filter elem := rfl

/-- All of an element's probe bits are set in the filter. -/
def bloom_marked (hash_any : List Nat → Nat) (filter : bloom_filter)
    (elem : List Nat) : Prop :=
  ∀ pos ∈ k_hashes hash_any filter elem, bloom_getbit filter.bitset pos = true

theorem bloom_lacks_of_marked (hash_any : List Nat → Nat) (filter : bloom_filter)
    (elem : List Nat) (h : bloom_marked hash_any filter elem) :
    bloom_lacks_element hash_any filter elem = false := by
  unfold bloom_lacks_element
  rw [List.any_eq_false]
  intro pos hpos
  simp [h pos hpos]

theorem bloom_wf_add (hash_any : List Nat → Nat) (filter : bloom_filter)
    (elem : List Nat) (hwf : bloom_wf filter) :
    bloom_wf (bloom_add_element hash_any filter elem) := by
  refine ⟨hwf.1, ?_⟩
  rw [bloom_add_element_bitset, length_foldl_setbit]
  exact hwf.2

theorem bloom_marked_add_self (hash_any : List Nat → Nat) (filter : bloom_filter)
    (elem : List Nat) (hwf : bloom_wf filter) :
    bloom_marked hash_any (bloom_add_element hash_any filter elem) elem := by
  intro pos hpos
  rw [k_hashes_add] at hpos
  rw [bloom_add_element_bitset]
  apply bloom_getbit_foldl_self _ _ _ hpos
  rw [shiftRight_three]
  have h1 : pos < filter.bitset_bits := k_hashes_lt hash_any filter hwf.1 elem pos hpos
  have h2 := hwf.2
  omega

theorem bloom_marked_add_mono (hash_any : List Nat → Nat) (filter : bloom_filter)
    (x elem : List Nat) (h : bloom_marked hash_any filter elem) :
    bloom_marked hash_any (bloom_add_element hash_any filter x) elem := by
  intro pos hpos
  rw [k_hashes_add] at hpos
  rw [bloom_add_element_bitset]
  exact bloom_getbit_foldl_mono _ _ _ (h pos hpos)

theorem bloom_marked_foldl_mono (hash_any : List Nat → Nat) (e : List Nat)
    (rest : List (List Nat)) :
    ∀ filter, bloom_marked hash_any filter e →
      bloom_marked hash_any (rest.foldl (bloom_add_element hash_any) filter) e := by
  induction rest with
  | nil => intro filter h; exact h
  | cons x r ih =>
    intro filter h
    rw [List.foldl_cons]
    exact ih _ (bloom_marked_add_mono hash_any filter x e h)

theorem bloom_lacks_foldl (hash_any : List Nat → Nat) (elems : List (List Nat)) :
    ∀ filter : bloom_filter, bloom_wf filter → ∀ e ∈ elems,
      bloom_lacks_element hash_any (elems.foldl (bloom_add_element hash_any) filter) e
        = false := by
  induction elems with
  | nil => intro f hwf e he; cases he
  | cons x rest ih =>
    intro f hwf e he
    rw [List.foldl_cons]
    rcases List.mem_cons.mp he with h | h
    · subst h
      exact bloom_lacks_of_marked _ _ _
        (bloom_marked_foldl_mono _ _ _ _ (bloom_marked_add_self _ _ _ hwf))
    · exact ih (bloom_add_element hash_any f x) (bloom_wf_add _ _ _ hwf) e h

/-! ### Characterizing the sizing arithmetic of bloom_create -/

theorem my_bloom_power_loop_eq (target : Nat) :
    ∀ p : Int, 0 < target → p < 32 →
      my_bloom_power_loop target p = min (p + 1 + Nat.log2 target) 32 := by
  induction target using Nat.strong_induction_on with
  | _ target ih =>
    intro p ht hp
    rw [my_bloom_power_loop, dif_pos ⟨ht, hp⟩]
    by_cases h2 : 2 ≤ target
    · have hdiv : 0 < target / 2 := Nat.div_pos h2 (by norm_num)
      have hlog : Nat.log2 target = Nat.log2 (target / 2) + 1 := by
        rw [Nat.log2, if_pos h2]
      by_cases hp1 : p + 1 < 32
      · rw [ih (target / 2) (Nat.div_lt_self ht one_lt_two) (p + 1) hdiv hp1, hlog]
        congr 1
        push_cast
        ring
      · have hp2 : p + 1 = 32 := by omega
        rw [my_bloom_power_loop, dif_neg (by omega), hlog, hp2]
        have h0 : (0 : Int) ≤ (Nat.log2 (target / 2) + 1 : Nat) := by positivity
        omega
    · have h1 : target = 1 := by omega
      subst h1
      rw [my_bloom_power_loop, dif_neg (by norm_num)]
      have hl1 : Nat.log2 1 = 0 := by rw [Nat.log2]; simp
      rw [hl1]
      omega

theorem my_bloom_power_eq (t : Int) (ht : 1 ≤ t) :
    my_bloom_power t = min ((Nat.log2 t.toNat : Int)) 32 := by
  unfold my_bloom_power
  rw [my_bloom_power_loop_eq t.toNat (-1) (by omega) (by norm_num)]
  omega

theorem bloom_budget_log2_ge (bloom_work_mem : Int) (total_elems : Nat) :
    23 ≤ Nat.log2
      ((max (1024 * 1024) (min (bloom_work_mem * 1024) ((total_elems : Int) * 2)) * 8).toNat) := by
  have hB := le_max_left (1024 * 1024 : Int) (min (bloom_work_mem * 1024) ((total_elems : Int) * 2))
  rw [Nat.le_log2 (by omega)]
  have h23 : (2 : Nat) ^ 23 = 8388608 := by norm_num
  rw [h23]
  omega

theorem bloom_create_bits_eq (total_elems : Nat) (bloom_work_mem : Int) (seed : Nat) :
    (bloom_create total_elems bloom_work_mem seed).bitset_bits
      = 2 ^ min (Nat.log2
          ((max (1024 * 1024) (min (bloom_work_mem * 1024) ((total_elems : Int) * 2)) * 8).toNat)) 32 := by
  have hB := le_max_left (1024 * 1024 : Int) (min (bloom_work_mem * 1024) ((total_elems : Int) * 2))
  have hcast : ((BITS_PER_BYTE : Nat) : Int) = 8 := by norm_num [BITS_PER_BYTE]
  simp only [bloom_create, hcast]
  rw [my_bloom_power_eq _ (by omega)]
  congr 1
  omega

theorem bloom_create_wf (total_elems : Nat) (bloom_work_mem : Int) (seed : Nat) :
    bloom_wf (bloom_create total_elems bloom_work_mem seed) := by
  have hbits := bloom_create_bits_eq total_elems bloom_work_mem seed
  have hlog := bloom_budget_log2_ge bloom_work_mem total_elems
  constructor
  · rw [hbits]; exact Nat.two_pow_pos _
  · have hlen : (bloom_create total_elems bloom_work_mem seed).bitset.length
        = (bloom_create total_elems bloom_work_mem seed).bitset_bits / 8 := by
      simp [bloom_create, BITS_PER_BYTE]
    rw [hlen, hbits]
    have hm3 : 3 ≤ min (Nat.log2
        ((max (1024 * 1024) (min (bloom_work_mem * 1024) ((total_elems : Int) * 2)) * 8).toNat)) 32 := by
      omega
    have hdvd : (8 : Nat) ∣ 2 ^ min (Nat.log2
        ((max (1024 * 1024) (min (bloom_work_mem * 1024) ((total_elems : Int) * 2)) * 8).toNat)) 32 := by
      have h8 : (8 : Nat) = 2 ^ 3 := by norm_num
      rw [h8]
      exact Nat.pow_dvd_pow 2 hm3
    exact Nat.div_mul_cancel hdvd

/-- C1: a filter built by `bloom_create` (any `total_elems ≥ 1`, any memory
budget, any seed) never produces a false negative: after any finite
sequence of `bloom_add_element` calls, `bloom_lacks_element` returns
`false` for every element that was added, because add and lacks derive
the same k bit positions and no operation clears a bit. -/
theorem bloom_no_false_negatives (hash_any : List Nat → Nat)
    (total_elems : Nat) (bloom_work_mem : Int) (seed : Nat)
    (h1 : 1 ≤ total_elems) (elems : List (List Nat)) (e : List Nat) (he : e ∈ elems) :
    bloom_lacks_element hash_any
      (elems.foldl (bloom_add_element hash_any)
        (bloom_create total_elems bloom_work_mem seed)) e = false :=
  bloom_lacks_foldl hash_any elems _ (bloom_create_wf total_elems bloom_work_mem seed) e he

theorem bloom_no_false_negatives_witness :
    (1 : Nat) ≤ 1 ∧ ([1] : List Nat) ∈ [[1]] ∧
      bloom_lacks_element (fun _ => 0)
        ([[1]].foldl (bloom_add_element (fun _ => 0)) (bloom_create 1 0 0)) [1] = false :=
  ⟨by decide, by decide,
    bloom_no_false_negatives (fun _ => 0) 1 0 0 (by decide) [[1]] [1] (by decide)⟩

/-- C9: on a filter built by `bloom_create`, every bit position produced by
the k-hash derivation is strictly below `bitset_bits`, and the derived
byte index stays inside the allocated byte array (`position / 8` is below
`bitset_bits / 8`, the byte length of the bitset); `bitset_bits` is a
power of two at most `2 ^ 32`. -/
theorem k_hashes_in_range (hash_any : List Nat → Nat) (total_elems : Nat)
    (bloom_work_mem : Int) (seed : Nat) (elem : List Nat) :
    (∀ pos ∈ k_hashes hash_any (bloom_create total_elems bloom_work_mem seed) elem,
        pos < (bloom_create total_elems bloom_work_mem seed).bitset_bits ∧
        pos >>> 3 < (bloom_create total_elems bloom_work_mem seed).bitset.length ∧
        pos / 8 < (bloom_create total_elems bloom_work_mem seed).bitset_bits / 8) ∧
    (∃ p ≤ 32, (bloom_create total_elems bloom_work_mem seed).bitset_bits = 2 ^ p) := by
  have hwf := bloom_create_wf total_elems bloom_work_mem seed
  constructor
  · intro pos hpos
    have h1 : pos < (bloom_create total_elems bloom_work_mem seed).bitset_bits :=
      k_hashes_lt hash_any _ hwf.1 elem pos hpos
    have h2 := hwf.2
    refine ⟨h1, ?_, ?_⟩
    · rw [shiftRight_three]; omega
    · omega
  · refine ⟨min (Nat.log2
      ((max (1024 * 1024) (min (bloom_work_mem * 1024) ((total_elems : Int) * 2)) * 8).toNat)) 32,
      ?_, bloom_create_bits_eq total_elems bloom_work_mem seed⟩
    omega

/-- C8: `bloom_create(total_elems, bloom_work_mem, seed)` sets the bitset
size to the largest power-of-two number of bits not exceeding
8 × max(1 MB, min(bloom_work_mem × 1024 bytes, 2 × total_elems bytes)),
never exceeding `2 ^ 32` bits, and sets the number of hash probes to
round(ln 2 × bitset_bits / total_elems) clamped to the range [1, 10]. -/
theorem bloom_create_sizing (total_elems : Nat) (bloom_work_mem : Int) (seed : Nat)
    (h1 : 1 ≤ total_elems) :
    (∃ p : Nat, (bloom_create total_elems bloom_work_mem seed).bitset_bits = 2 ^ p) ∧
    ((bloom_create total_elems bloom_work_mem seed).bitset_bits : Int)
        ≤ 8 * max (1024 * 1024) (min (bloom_work_mem * 1024) ((total_elems : Int) * 2)) ∧
    (bloom_create total_elems bloom_work_mem seed).bitset_bits ≤ 2 ^ 32 ∧
    (∀ q : Nat, q ≤ 32 →
      (2 ^ q : Int) ≤ 8 * max (1024 * 1024) (min (bloom_work_mem * 1024) ((total_elems : Int) * 2)) →
      2 ^ q ≤ (bloom_create total_elems bloom_work_mem seed).bitset_bits) ∧
    ((bloom_create total_elems bloom_work_mem seed).k_hash_funcs : Int)
        = max 1 (min (round (Real.log 2 *
            ((bloom_create total_elems bloom_work_mem seed).bitset_bits : Real) /
            (total_elems : Real))) 10) := by
  have hbits := bloom_create_bits_eq total_elems bloom_work_mem seed
  have hlog := bloom_budget_log2_ge bloom_work_mem total_elems
  have hB := le_max_left (1024 * 1024 : Int) (min (bloom_work_mem * 1024) ((total_elems : Int) * 2))
  have hXnn : (0 : Int) ≤ max (1024 * 1024) (min (bloom_work_mem * 1024) ((total_elems : Int) * 2)) * 8 := by
    omega
  have h2L : (2 : Nat) ^ (Nat.log2
      ((max (1024 * 1024) (min (bloom_work_mem * 1024) ((total_elems : Int) * 2)) * 8).toNat))
        ≤ (max (1024 * 1024) (min (bloom_work_mem * 1024) ((total_elems : Int) * 2)) * 8).toNat :=
    Nat.log2_self_le (by omega)
  refine ⟨⟨_, hbits⟩, ?_, ?_, ?_, ?_⟩
  · rw [hbits]
    have hm : (2 : Nat) ^ min (Nat.log2
        ((max (1024 * 1024) (min (bloom_work_mem * 1024) ((total_elems : Int) * 2)) * 8).toNat)) 32
          ≤ (max (1024 * 1024) (min (bloom_work_mem * 1024) ((total_elems : Int) * 2)) * 8).toNat :=
      le_trans (Nat.pow_le_pow_right (by norm_num) (min_le_left _ _)) h2L
    have hcast : ((2 : Nat) ^ min (Nat.log2
        ((max (1024 * 1024) (min (bloom_work_mem * 1024) ((total_elems : Int) * 2)) * 8).toNat)) 32 : Int)
          ≤ ((max (1024 * 1024) (min (bloom_work_mem * 1024) ((total_elems : Int) * 2)) * 8).toNat : Int) := by
      exact_mod_cast hm
    rw [Int.toNat_of_nonneg hXnn] at hcast
    omega
  · rw [hbits]
    exact Nat.pow_le_pow_right (by norm_num) (min_le_right _ _)
  · intro q hq32 hqle
    rw [hbits]
    apply Nat.pow_le_pow_right (by norm_num)
    have hq2 : ((2 : Nat) ^ q : Int) ≤ ((max (1024 * 1024) (min (bloom_work_mem * 1024) ((total_elems : Int) * 2)) * 8).toNat : Int) := by
      rw [Int.toNat_of_nonneg hXnn]
      push_cast
      omega
    have hq3 : (2 : Nat) ^ q ≤ (max (1024 * 1024) (min (bloom_work_mem * 1024) ((total_elems : Int) * 2)) * 8).toNat := by
      exact_mod_cast hq2
    have hqlog : q ≤ Nat.log2
        ((max (1024 * 1024) (min (bloom_work_mem * 1024) ((total_elems : Int) * 2)) * 8).toNat) :=
      (Nat.le_log2 (by omega)).mpr hq3
    omega
  · have hk : (bloom_create total_elems bloom_work_mem seed).k_hash_funcs
        = (optimal_k ((bloom_create total_elems bloom_work_mem seed).bitset_bits) total_elems).toNat := rfl
    rw [hk]
    unfold optimal_k
    rw [Int.toNat_of_nonneg (le_trans (by norm_num) (le_max_left 1 _))]
    norm_num [MAX_HASH_FUNCS]

theorem bloom_create_sizing_witness :
    (1 : Nat) ≤ 1 ∧
      ((bloom_create 1 0 0).bitset_bits : Int)
        ≤ 8 * max (1024 * 1024) (min ((0 : Int) * 1024) (((1 : Nat) : Int) * 2)) :=
  ⟨by decide, (bloom_create_sizing 1 0 0 (by decide)).2.1⟩

/-! ### The per-page invariant checker of verify_nbtree.c -/

/-- Errors raised by `bt_target_page_check` through `ereport(ERROR, ...)`:
the high key invariant, the item order invariant, the cross page order
invariant, and errors of `bt_downlink_check`. -/
inductive BtCheckErr where
  | highKey
  | itemOrder
  | crossPage
  | downlink
deriving Repr, DecidableEq

/-- Abstraction of the target page for `bt_target_page_check`: the
`P_ISLEAF` flag, the high key (`none` iff `P_RIGHTMOST`, in which case the
page has no high key), and the data items at offsets
`P_FIRSTDATAKEY(opaque) .. PageGetMaxOffsetNumber(page)`, each represented
by its insertion scankey.  On an internal page the first data item is the
"negative infinity" sentinel. -/
structure BtTargetPage (α : Type) where
  isleaf : Bool
  highkey : Option α
  items : List α

/-- The non-sentinel items of the page: `offset_is_negative_infinity`
holds exactly for the first data item of an internal page, which the
checker's loop skips with `continue`. -/
def bt_real_items {α : Type} (page : BtTargetPage α) : List α :=
  if page.isleaf then page.items else page.items.drop 1

/-- The high-key test of the loop body:
`!P_RIGHTMOST(special) && !invariant_leq_offset(state, skey, P_HIKEY)`.
A rightmost page (`highkey = none`) never fails it. -/
def bt_highkey_fails {α : Type} (cmp : α → α → Int) (page : BtTargetPage α) (x : α) : Bool :=
  match page.highkey with
  | some hk => decide (0 < cmp x hk)
  | none => false

/-- The downlink check of the loop body: performed only for internal pages
under ShareLock (`!P_ISLEAF(special) && state->readonly`); `dl_ok x`
abstracts `bt_downlink_check` for the downlink of item `x` (`true` = that
call raises no error). -/
def bt_downlink_step {α : Type} (page : BtTargetPage α) (readonly : Bool)
    (dl_ok : α → Bool) (x : α) : Except BtCheckErr Unit :=
  if !page.isleaf && readonly && !dl_ok x then Except.error BtCheckErr.downlink
  else Except.ok ()

/-- The `offset == max` arm of the loop: the cross-page ("last item")
check.  `rightkey` is the result of `bt_right_page_check_scankey` (`none`
models a NULL result); the failure test is `!invariant_geq_offset(state,
rightkey, max)`, i.e. `cmp rightkey last < 0`.  In `!readonly` mode the
target page is re-fetched first: `refetch_ignorable` tells whether the
freshly fetched target page is `P_IGNORE`, in which case the function
returns without error.  When the check passes (or no right key is
available), the downlink check for the last item still runs. -/
def bt_last_item_check {α : Type} (cmp : α → α → Int) (page : BtTargetPage α)
    (readonly : Bool) (rightkey : Option α) (refetch_ignorable : Bool)
    (dl_ok : α → Bool) (x : α) : Except BtCheckErr Unit :=
  match rightkey with
  | some rk =>
    if cmp rk x < 0 then
      if !readonly then
        if refetch_ignorable then Except.ok ()
        else Except.error BtCheckErr.crossPage
      else Except.error BtCheckErr.crossPage
    else bt_downlink_step page readonly dl_ok x
  | none => bt_downlink_step page readonly dl_ok x

/-- The offset loop of `bt_target_page_check` over the non-sentinel items.
`cmp` is the opclass three-way comparator (`_bt_compare` applied to an
insertion scankey, reached through `invariant_leq_offset` /
`invariant_geq_offset`).  For every item: first the high-key check, then —
when a next item exists (`OffsetNumberNext(offset) <= max`) — the
item-order check, otherwise (`offset == max`) the cross-page check; after
those, the downlink check. -/
def bt_check_items {α : Type} (cmp : α → α → Int) (page : BtTargetPage α)
    (readonly : Bool) (rightkey : Option α) (refetch_ignorable : Bool)
    (dl_ok : α → Bool) : List α → Except BtCheckErr Unit
  | [] => Except.ok ()
  | [x] =>
    if bt_highkey_fails cmp page x then Except.error BtCheckErr.highKey
    else bt_last_item_check cmp page readonly rightkey refetch_ignorable dl_ok x
  | x :: y :: rest2 =>
    if bt_highkey_fails cmp page x then Except.error BtCheckErr.highKey
    else if 0 < cmp x y then Except.error BtCheckErr.itemOrder
    else if !page.isleaf && readonly && !dl_ok x then Except.error BtCheckErr.downlink
    else bt_check_items cmp page readonly rightkey refetch_ignorable dl_ok (y :: rest2)

/-- `bt_target_page_check` from verify_nbtree.c.  (The Bloom
fingerprinting performed in heapallindexed mode is a side effect on the
filter and does not influence the control flow modelled here.) -/
def bt_target_page_check {α : Type} (cmp : α → α → Int) (page : BtTargetPage α)
    (readonly : Bool) (rightkey : Option α) (refetch_ignorable : Bool)
    (dl_ok : α → Bool) : Except BtCheckErr Unit :=
  bt_check_items cmp page readonly rightkey refetch_ignorable dl_ok (bt_real_items page)

/-- Some non-sentinel item compares greater than the page's high key
(which requires the page not to be rightmost, i.e. to have a high key). -/
def bt_highkey_violation {α : Type} (cmp : α → α → Int) (page : BtTargetPage α) : Prop :=
  ∃ hk, page.highkey = some hk ∧ ∃ x ∈ bt_real_items page, 0 < cmp x hk

/-- Some non-sentinel item compares greater than the item immediately to
its right on the same page. -/
def bt_order_violation {α : Type} (cmp : α → α → Int) (page : BtTargetPage α) : Prop :=
  ¬ (bt_real_items page).Chain' (fun x y => cmp x y ≤ 0)

theorem bt_check_items_highKey_sound {α : Type} (cmp : α → α → Int)
    (page : BtTargetPage α) (readonly : Bool) (rightkey : Option α)
    (refetch_ignorable : Bool) (dl_ok : α → Bool) :
    ∀ L : List α,
      bt_check_items cmp page readonly rightkey refetch_ignorable dl_ok L
          = Except.error BtCheckErr.highKey →
      ∃ hk, page.highkey = some hk ∧ ∃ x ∈ L, 0 < cmp x hk := by
  intro L
  induction L with
  | nil => intro h; simp [bt_check_items] at h
  | cons x rest ih =>
    intro h
    rcases rest with _ | ⟨y, rest2⟩ <;> rw [bt_check_items] at h <;>
      by_cases hhk : bt_highkey_fails cmp page x = true
    · unfold bt_highkey_fails at hhk
      rcases hp : page.highkey with _ | hk
      · rw [hp] at hhk; simp at hhk
      · rw [hp] at hhk
        simp only [decide_eq_true_eq] at hhk
        exact ⟨hk, rfl, x, List.mem_cons_self x [], hhk⟩
    · rw [if_neg hhk] at h
      unfold bt_last_item_check bt_downlink_step at h
      split at h <;> split_ifs at h <;> simp_all
    · unfold bt_highkey_fails at hhk
      rcases hp : page.highkey with _ | hk
      · rw [hp] at hhk; simp at hhk
      · rw [hp] at hhk
        simp only [decide_eq_true_eq] at hhk
        exact ⟨hk, rfl, x, List.mem_cons_self x (y :: rest2), hhk⟩
    · rw [if_neg hhk] at h
      split at h
      · simp at h
      · split at h
        · simp at h
        · obtain ⟨hk, hp, z, hz, hcz⟩ := ih h
          exact ⟨hk, hp, z, List.mem_cons_of_mem x hz, hcz⟩

theorem bt_check_items_itemOrder_sound {α : Type} (cmp : α → α → Int)
    (page : BtTargetPage α) (readonly : Bool) (rightkey : Option α)
    (refetch_ignorable : Bool) (dl_ok : α → Bool) :
    ∀ L : List α,
      bt_check_items cmp page readonly rightkey refetch_ignorable dl_ok L
          = Except.error BtCheckErr.itemOrder →
      ¬ L.Chain' (fun x y => cmp x y ≤ 0) := by
  intro L
  induction L with
  | nil => intro h; simp [bt_check_items] at h
  | cons x rest ih =>
    intro h
    rcases rest with _ | ⟨y, rest2⟩ <;> rw [bt_check_items] at h <;>
      by_cases hhk : bt_highkey_fails cmp page x = true
    · rw [if_pos hhk] at h; simp at h
    · rw [if_neg hhk] at h
      unfold bt_last_item_check bt_downlink_step at h
      split at h <;> split_ifs at h <;> simp_all
    · rw [if_pos hhk] at h; simp at h
    · rw [if_neg hhk] at h
      split at h
      · rename_i hxy
        intro hch
        exact absurd (List.chain'_cons.mp hch).1 (by omega)
      · split at h
        · simp at h
        · intro hch
          exact ih h (List.chain'_cons.mp hch).2

theorem bt_check_items_complete {α : Type} (cmp : α → α → Int)
    (page : BtTargetPage α) (readonly : Bool) (rightkey : Option α)
    (refetch_ignorable : Bool) (dl_ok : α → Bool) :
    ∀ L : List α, (∀ x ∈ L, dl_ok x = true) →
      ((∃ hk, page.highkey = some hk ∧ ∃ x ∈ L, 0 < cmp x hk) ∨
        ¬ L.Chain' (fun x y => cmp x y ≤ 0)) →
      (bt_check_items cmp page readonly rightkey refetch_ignorable dl_ok L
          = Except.error BtCheckErr.highKey ∨
       bt_check_items cmp page readonly rightkey refetch_ignorable dl_ok L
          = Except.error BtCheckErr.itemOrder) := by
  intro L
  induction L with
  | nil =>
    intro hdl hviol
    rcases hviol with ⟨hk, hp, z, hz, hcz⟩ | hch
    · simp at hz
    · exact absurd List.chain'_nil hch
  | cons x rest ih =>
    intro hdl hviol
    have hdlx : dl_ok x = true := hdl x (List.mem_cons_self x rest)
    have hdlrest : ∀ z ∈ rest, dl_ok z = true :=
      fun z hz => hdl z (List.mem_cons_of_mem x hz)
    rcases rest with _ | ⟨y, rest2⟩ <;> rw [bt_check_items] <;>
      by_cases hhk : bt_highkey_fails cmp page x = true
    · rw [if_pos hhk]; exact Or.inl rfl
    · exfalso
      have hxpass : ∀ hk, page.highkey = some hk → cmp x hk ≤ 0 := by
        intro hk hp
        unfold bt_highkey_fails at hhk
        rw [hp] at hhk
        simp only [decide_eq_true_eq] at hhk
        omega
      rcases hviol with ⟨hk, hp, z, hz, hcz⟩ | hch
      · have hzx : z = x := by simpa using hz
        subst hzx
        exact absurd hcz (by have := hxpass hk hp; omega)
      · exact hch (List.chain'_singleton x)
    · rw [if_pos hhk]; exact Or.inl rfl
    · rw [if_neg hhk]
      have hxpass : ∀ hk, page.highkey = some hk → cmp x hk ≤ 0 := by
        intro hk hp
        unfold bt_highkey_fails at hhk
        rw [hp] at hhk
        simp only [decide_eq_true_eq] at hhk
        omega
      by_cases hxy : 0 < cmp x y
      · rw [if_pos hxy]; exact Or.inr rfl
      · rw [if_neg hxy]
        have hcond : (!page.isleaf && readonly && !dl_ok x) = false := by
          rw [hdlx]; simp
        rw [hcond, if_neg (by simp)]
        apply ih hdlrest
        rcases hviol with ⟨hk, hp, z, hz, hcz⟩ | hch
        · rcases List.mem_cons.mp hz with hzx | hz2
          · subst hzx
            exact absurd hcz (by have := hxpass hk hp; omega)
          · exact Or.inl ⟨hk, hp, z, hz2, hcz⟩
        · right
          intro hch2
          exact hch (List.chain'_cons.mpr ⟨by omega, hch2⟩)

/-- C2 (amended): for every page handed to `bt_target_page_check`, under
the proviso that no downlink-check error preempts the scan (e.g. on leaf
pages, in non-strict mode, or when all downlink checks pass): a
"high key invariant violated" or an "item order invariant violated"
signal is raised if and only if some non-sentinel item compares greater
than the page's high key (on a non-rightmost page) or some non-sentinel
item compares greater than its immediate right neighbor; moreover each of
the two signals is raised only if its own condition holds.  The checker
aborts at the first violated check in scan order, so when both conditions
hold only the first failing check's signal is raised (see the
counterexample to the literal "if and only if" reading). -/
theorem bt_target_page_check_classifies {α : Type} (cmp : α → α → Int)
    (page : BtTargetPage α) (readonly : Bool) (rightkey : Option α)
    (refetch_ignorable : Bool) (dl_ok : α → Bool)
    (hdl : ∀ x ∈ bt_real_items page, dl_ok x = true) :
    ((bt_target_page_check cmp page readonly rightkey refetch_ignorable dl_ok
          = Except.error BtCheckErr.highKey ∨
      bt_target_page_check cmp page readonly rightkey refetch_ignorable dl_ok
          = Except.error BtCheckErr.itemOrder)
      ↔ (bt_highkey_violation cmp page ∨ bt_order_violation cmp page)) ∧
    (bt_target_page_check cmp page readonly rightkey refetch_ignorable dl_ok
        = Except.error BtCheckErr.highKey → bt_highkey_violation cmp page) ∧
    (bt_target_page_check cmp page readonly rightkey refetch_ignorable dl_ok
        = Except.error BtCheckErr.itemOrder → bt_order_violation cmp page) := by
  unfold bt_target_page_check bt_highkey_violation bt_order_violation
  refine ⟨⟨?_, ?_⟩, ?_, ?_⟩
  · intro h
    rcases h with h | h
    · exact Or.inl (bt_check_items_highKey_sound cmp page readonly rightkey
        refetch_ignorable dl_ok _ h)
    · exact Or.inr (bt_check_items_itemOrder_sound cmp page readonly rightkey
        refetch_ignorable dl_ok _ h)
  · exact bt_check_items_complete cmp page readonly rightkey refetch_ignorable dl_ok _ hdl
  · exact bt_check_items_highKey_sound cmp page readonly rightkey refetch_ignorable dl_ok _
  · exact bt_check_items_itemOrder_sound cmp page readonly rightkey refetch_ignorable dl_ok _

/-- Integer difference: a concrete three-way comparator for concrete
instances of the abstract opclass comparator. -/
def cmpInt (x y : Int) : Int := x - y

theorem bt_target_page_check_classifies_witness :
    (∀ x ∈ bt_real_items (BtTargetPage.mk true (some 10) [1, 2]),
        (fun _ : Int => true) x = true) ∧
    ((bt_target_page_check cmpInt (BtTargetPage.mk true (some 10) [1, 2])
          false none false (fun _ => true) = Except.error BtCheckErr.highKey ∨
      bt_target_page_check cmpInt (BtTargetPage.mk true (some 10) [1, 2])
          false none false (fun _ => true) = Except.error BtCheckErr.itemOrder)
      ↔ (bt_highkey_violation cmpInt (BtTargetPage.mk true (some 10) [1, 2]) ∨
         bt_order_violation cmpInt (BtTargetPage.mk true (some 10) [1, 2]))) :=
  ⟨by intro x hx; rfl,
    (bt_target_page_check_classifies cmpInt (BtTargetPage.mk true (some 10) [1, 2])
      false none false (fun _ => true) (by intro x hx; rfl)).1⟩

/-- C2 counterexample to the claim as stated: on a non-rightmost leaf page
with high key 10 and items `[20, 3]`, the item-order condition holds
(20 compares greater than 3), yet the "item order invariant violated"
signal is not raised: the checker aborts with the "high key invariant
violated" signal at the first item, so the claimed "if and only if" for
the item-order signal fails. -/
theorem bt_target_page_check_not_iff :
    0 < cmpInt 20 3 ∧
    bt_target_page_check cmpInt (BtTargetPage.mk true (some 10) [20, 3])
        false none false (fun _ => true) = Except.error BtCheckErr.highKey ∧
    bt_target_page_check cmpInt (BtTargetPage.mk true (some 10) [20, 3])
        false none false (fun _ => true) ≠ Except.error BtCheckErr.itemOrder := by
  have hres : bt_target_page_check cmpInt (BtTargetPage.mk true (some 10) [20, 3])
      false none false (fun _ => true) = Except.error BtCheckErr.highKey := rfl
  refine ⟨by decide, hres, ?_⟩
  rw [hres]
  intro hcon
  injection hcon with h2
  exact absurd h2 (by decide)

theorem bt_check_items_last {α : Type} (cmp : α → α → Int) (page : BtTargetPage α)
    (readonly : Bool) (rightkey : Option α) (refetch_ignorable : Bool)
    (dl_ok : α → Bool) (z : α) :
    ∀ L0 : List α,
      (∀ x ∈ L0 ++ [z], bt_highkey_fails cmp page x = false) →
      (L0 ++ [z]).Chain' (fun x y => cmp x y ≤ 0) →
      (∀ x ∈ L0 ++ [z], dl_ok x = true) →
      bt_check_items cmp page readonly rightkey refetch_ignorable dl_ok (L0 ++ [z])
        = bt_last_item_check cmp page readonly rightkey refetch_ignorable dl_ok z := by
  intro L0
  induction L0 with
  | nil =>
    intro hhk hch hdl
    have hz : bt_highkey_fails cmp page z = false := hhk z (by simp)
    simp only [List.nil_append]
    rw [bt_check_items, if_neg (by simp [hz])]
  | cons x L0' ih =>
    intro hhk hch hdl
    obtain ⟨y, rest2, hL⟩ : ∃ y rest2, L0' ++ [z] = y :: rest2 := by
      cases L0' with
      | nil => exact ⟨z, [], rfl⟩
      | cons a t => exact ⟨a, t ++ [z], rfl⟩
    have hx : bt_highkey_fails cmp page x = false := hhk x (by simp)
    have hch1 : (x :: (y :: rest2)).Chain' (fun a b => cmp a b ≤ 0) := by
      rw [← hL]
      simpa [List.cons_append] using hch
    have hchx : cmp x y ≤ 0 := (List.chain'_cons.mp hch1).1
    have hdx : dl_ok x = true := hdl x (by simp)
    rw [List.cons_append, hL, bt_check_items, if_neg (by simp [hx]),
        if_neg (by omega), if_neg (by simp [hdx]), ← hL]
    exact ih
      (fun w hw => hhk w (List.mem_cons_of_mem x hw))
      (by rw [hL]; exact (List.chain'_cons.mp hch1).2)
      (fun w hw => hdl w (List.mem_cons_of_mem x hw))

/-- C3: when the mode is not strict (`readonly = false`) and the last item
of the target page compares greater than the first real item obtained
from its right sibling (the page-local checks passing, so the cross-page
check is reached), the checker consults the re-fetched target page: if
that page is now ignorable, verification of the page ends without raising
any error; otherwise the cross page order corruption signal is raised.
In strict mode (`readonly = true`) the cross page signal is raised for
every value of the re-fetch oracle, i.e. without any re-fetch. -/
theorem bt_cross_page_race_handling {α : Type} (cmp : α → α → Int)
    (page : BtTargetPage α) (dl_ok : α → Bool) (r z : α) (L0 : List α)
    (hitems : bt_real_items page = L0 ++ [z])
    (hhk : ∀ x ∈ bt_real_items page, bt_highkey_fails cmp page x = false)
    (hch : (bt_real_items page).Chain' (fun x y => cmp x y ≤ 0))
    (hdl : ∀ x ∈ bt_real_items page, dl_ok x = true)
    (hlast : cmp r z < 0) :
    bt_target_page_check cmp page false (some r) true dl_ok = Except.ok () ∧
    bt_target_page_check cmp page false (some r) false dl_ok
      = Except.error BtCheckErr.crossPage ∧
    (∀ b : Bool, bt_target_page_check cmp page true (some r) b dl_ok
      = Except.error BtCheckErr.crossPage) := by
  have key : ∀ ro ri : Bool,
      bt_target_page_check cmp page ro (some r) ri dl_ok
        = bt_last_item_check cmp page ro (some r) ri dl_ok z := by
    intro ro ri
    unfold bt_target_page_check
    rw [hitems]
    exact bt_check_items_last cmp page ro (some r) ri dl_ok z L0
      (by rw [← hitems]; exact hhk) (by rw [← hitems]; exact hch)
      (by rw [← hitems]; exact hdl)
  refine ⟨?_, ?_, ?_⟩
  · rw [key]; simp [bt_last_item_check, hlast]
  · rw [key]; simp [bt_last_item_check, hlast]
  · intro b; rw [key]; simp [bt_last_item_check, hlast]

theorem bt_cross_page_race_handling_witness :
    cmpInt 3 5 < 0 ∧
    bt_target_page_check cmpInt (BtTargetPage.mk true (some 10) [5])
        false (some 3) true (fun _ => true) = Except.ok () :=
  ⟨by decide,
    (bt_cross_page_race_handling cmpInt (BtTargetPage.mk true (some 10) [5])
      (fun _ => true) 3 5 [] rfl (by decide)
      (by simpa [bt_real_items] using List.chain'_singleton (5 : Int))
      (by decide) (by decide)).1⟩

/-! ### The level walker bt_check_level_from_leftmost of verify_nbtree.c -/

/-- `P_NONE`: the "no sibling" block number. -/
def pNone : Nat := 0

/-- `InvalidBlockNumber` (0xFFFFFFFF). -/
def invalidBlock : Nat := 4294967295

/-- `InvalidBtreeLevel`, defined in verify_nbtree.c as
`(uint32) InvalidBlockNumber`. -/
def invalidBtreeLevel : Nat := 4294967295

/-- The fields of a B-Tree page that `bt_check_level_from_leftmost` reads:
`P_IGNORE`, `P_ISLEAF`, `P_ISROOT`, `btpo.level`, the sibling links
(`P_RIGHTMOST` is `btpo_next == P_NONE`, `P_LEFTMOST` is
`btpo_prev == P_NONE`), and the child block numbers referenced by the data
items (`downlinks`; on an internal page the first of them belongs to the
"negative infinity" sentinel item at `P_FIRSTDATAKEY`). -/
structure BtWalkPage where
  ignore : Bool
  isleaf : Bool
  isroot : Bool
  level : Nat
  btpo_prev : Nat
  btpo_next : Nat
  downlinks : List Nat
deriving Repr, DecidableEq

/-- The `BtreeLevel` struct of verify_nbtree.c. -/
structure BtreeLevel where
  level : Nat
  leftmost : Nat
  istruerootlevel : Bool
deriving Repr, DecidableEq

/-- The `ereport(ERROR, ...)` sites of `bt_check_level_from_leftmost`,
plus `targetPageFailed` for an error raised inside `bt_target_page_check`
and `outOfFuel` for exhausted iteration budget. -/
inductive BtWalkErr where
  | fellOffEnd
  | notLeftmost
  | notTrueRoot
  | leftLinkMismatch
  | levelMismatch
  | targetPageFailed
  | circularLink
  | outOfFuel
deriving Repr, DecidableEq

/-- The `else if (nextleveldown.leftmost == InvalidBlockNumber)` block of
`bt_check_level_from_leftmost`: performed at the first non-ignorable page
of the level; under `readonly` it checks `P_LEFTMOST` and (on the true
root level) `P_ISROOT`, then establishes the next level down from the
block referenced by the item at `P_FIRSTDATAKEY` (an internal page) or
marks the leaf level as final (`P_NONE` / `InvalidBtreeLevel`).
`special.level - 1` is `uint32` arithmetic.  On any later page of the
level the block is skipped and `nextleveldown` is returned unchanged. -/
def bt_establish_nextlevel (readonly : Bool) (level : BtreeLevel)
    (special : BtWalkPage) (nextleveldown : BtreeLevel) :
    Except BtWalkErr BtreeLevel :=
  if nextleveldown.leftmost = invalidBlock then
    if readonly && decide (special.btpo_prev ≠ pNone) then
      Except.error BtWalkErr.notLeftmost
    else if readonly && level.istruerootlevel && !special.isroot then
      Except.error BtWalkErr.notTrueRoot
    else if !special.isleaf then
      Except.ok (BtreeLevel.mk ((special.level + U32 - 1) % U32) (special.downlinks.headD 0) false)
    else
      Except.ok (BtreeLevel.mk invalidBtreeLevel pNone false)
  else Except.ok nextleveldown

/-- The `do { ... } while (current != P_NONE)` loop of
`bt_check_level_from_leftmost`.  `tcheck b` abstracts
`bt_target_page_check` on block `b` (`true` = no error raised).  The
walker carries the predecessor block (`leftcurrent`), the current block,
the `nextleveldown` state, the list of logged concerns (ignored
non-rightmost blocks, most recent first) and the list of blocks on which
`bt_target_page_check` was invoked (most recent first); `fuel` bounds the
number of iterations. -/
def bt_level_aux (pages : Nat → BtWalkPage) (readonly : Bool)
    (level : BtreeLevel) (tcheck : Nat → Bool) :
    Nat → Nat → Nat → BtreeLevel → List Nat → List Nat →
      Except BtWalkErr (BtreeLevel × List Nat × List Nat)
  | 0, _, _, _, _, _ => Except.error BtWalkErr.outOfFuel
  | fuel + 1, leftcurrent, current, nextleveldown, concerns, checked =>
    if (pages current).ignore then
      if (pages current).btpo_next = pNone then Except.error BtWalkErr.fellOffEnd
      else if current = leftcurrent ∨ current = (pages current).btpo_prev then
        Except.error BtWalkErr.circularLink
      else
        bt_level_aux pages readonly level tcheck fuel current (pages current).btpo_next
          nextleveldown (current :: concerns) checked
    else
      match bt_establish_nextlevel readonly level (pages current) nextleveldown with
      | Except.error e => Except.error e
      | Except.ok nld2 =>
        if readonly && decide ((pages current).btpo_prev ≠ leftcurrent) then
          Except.error BtWalkErr.leftLinkMismatch
        else if level.level ≠ (pages current).level then
          Except.error BtWalkErr.levelMismatch
        else if !tcheck current then
          Except.error BtWalkErr.targetPageFailed
        else if current = leftcurrent ∨ current = (pages current).btpo_prev then
          Except.error BtWalkErr.circularLink
        else if (pages current).btpo_next = pNone then
          Except.ok (nld2, concerns, current :: checked)
        else
          bt_level_aux pages readonly level tcheck fuel current (pages current).btpo_next
            nld2 concerns (current :: checked)

/-- `bt_check_level_from_leftmost` from verify_nbtree.c: runs the loop
from the caller-supplied leftmost block with `leftcurrent = P_NONE` and
`nextleveldown` initialized to `InvalidBlockNumber` /
`InvalidBtreeLevel`. -/
def bt_check_level_from_leftmost (pages : Nat → BtWalkPage) (readonly : Bool)
    (tcheck : Nat → Bool) (fuel : Nat) (level : BtreeLevel) :
    Except BtWalkErr (BtreeLevel × List Nat × List Nat) :=
  bt_level_aux pages readonly level tcheck fuel pNone level.leftmost
    (BtreeLevel.mk invalidBtreeLevel invalidBlock false) [] []

/-- The first non-ignorable block reached from `start` by following
`btpo_next` links, skipping ignorable non-rightmost pages exactly as the
walker does. -/
def firstNonIgnorable (pages : Nat → BtWalkPage) : Nat → Nat → Option Nat
  | 0, _ => none
  | fuel + 1, b =>
    if (pages b).ignore then
      if (pages b).btpo_next = pNone then none
      else firstNonIgnorable pages fuel (pages b).btpo_next
    else some b

/-- C5 (amended): a page visited by the level walker that is marked
ignorable and is rightmost (`btpo_next == P_NONE`) raises the fatal
"fell off the end" corruption signal.  An ignorable non-rightmost page —
provided it does not trip the circular-link detection (it differs from
the previously visited block and its left link does not point to itself)
— only has a concern logged: `nextleveldown` is untouched, no invariant
check runs on it (`bt_target_page_check` is not invoked: the `checked`
accumulator is unchanged and the equation holds for every `tcheck`), and
the walk continues with the page referenced by its right sibling link. -/
theorem bt_level_ignorable_handling (pages : Nat → BtWalkPage) (readonly : Bool)
    (level : BtreeLevel) (tcheck : Nat → Bool) (fuel leftcurrent b : Nat)
    (nld : BtreeLevel) (concerns checked : List Nat)
    (hig : (pages b).ignore = true) :
    ((pages b).btpo_next = pNone →
      bt_level_aux pages readonly level tcheck (fuel + 1) leftcurrent b nld concerns checked
        = Except.error BtWalkErr.fellOffEnd) ∧
    ((pages b).btpo_next ≠ pNone → b ≠ leftcurrent → (pages b).btpo_prev ≠ b →
      bt_level_aux pages readonly level tcheck (fuel + 1) leftcurrent b nld concerns checked
        = bt_level_aux pages readonly level tcheck fuel b (pages b).btpo_next
            nld (b :: concerns) checked) := by
  constructor
  · intro hnext
    rw [bt_level_aux, if_pos hig, if_pos hnext]
  · intro hnext hlc hprev
    rw [bt_level_aux, if_pos hig, if_neg hnext,
      if_neg (by push_neg; exact ⟨hlc, fun hc => hprev hc.symm⟩)]

/-- Concrete page store for the C5 counterexample: block 1 is ignorable,
non-rightmost (its right link is block 2), and its left link points to
itself; every other block is an ordinary leaf page. -/
def pagesSelfPrev : Nat → BtWalkPage := fun b =>
  if b = 1 then BtWalkPage.mk true false false 0 1 2 []
  else BtWalkPage.mk false true false 0 0 0 []

/-- C5 counterexample to the claim as stated: block 1 of `pagesSelfPrev`
is ignorable and not rightmost, yet the walk does not continue with its
right sibling — the walker raises the fatal circular-link signal, because
the cycle check at the `nextpage` label still runs for ignored pages. -/
theorem bt_level_ignorable_not_always_continue :
    (pagesSelfPrev 1).ignore = true ∧
    (pagesSelfPrev 1).btpo_next ≠ pNone ∧
    bt_check_level_from_leftmost pagesSelfPrev false (fun _ => true) 5
        (BtreeLevel.mk 0 1 false)
      = Except.error BtWalkErr.circularLink :=
  ⟨rfl, by decide, rfl⟩

theorem bt_level_ignorable_handling_witness :
    (pagesSelfPrev 1).ignore = true ∧
    ((pagesSelfPrev 1).btpo_next = pNone →
      bt_level_aux pagesSelfPrev false (BtreeLevel.mk 0 1 false) (fun _ => true)
          4 pNone 1 (BtreeLevel.mk invalidBtreeLevel invalidBlock false) [] []
        = Except.error BtWalkErr.fellOffEnd) :=
  ⟨rfl,
    (bt_level_ignorable_handling pagesSelfPrev false (BtreeLevel.mk 0 1 false)
      (fun _ => true) 3 pNone 1 (BtreeLevel.mk invalidBtreeLevel invalidBlock false)
      [] [] rfl).1⟩

theorem bt_establish_nextlevel_skip (readonly : Bool) (level : BtreeLevel)
    (special : BtWalkPage) (nld : BtreeLevel) (h : nld.leftmost ≠ invalidBlock) :
    bt_establish_nextlevel readonly level special nld = Except.ok nld := by
  unfold bt_establish_nextlevel
  rw [if_neg h]

theorem bt_level_aux_stable (pages : Nat → BtWalkPage) (readonly : Bool)
    (level : BtreeLevel) (tcheck : Nat → Bool) :
    ∀ fuel leftcurrent current nld concerns checked res,
      nld.leftmost ≠ invalidBlock →
      bt_level_aux pages readonly level tcheck fuel leftcurrent current nld
          concerns checked = Except.ok res →
      res.1 = nld := by
  intro fuel
  induction fuel with
  | zero =>
    intro lc cur nld cs ks res hnld h
    rw [bt_level_aux] at h
    simp at h
  | succ fuel ih =>
    intro lc cur nld cs ks res hnld h
    rw [bt_level_aux] at h
    by_cases hig : (pages cur).ignore = true
    · rw [if_pos hig] at h
      by_cases hnext : (pages cur).btpo_next = pNone
      · rw [if_pos hnext] at h; simp at h
      · rw [if_neg hnext] at h
        by_cases hcyc : cur = lc ∨ cur = (pages cur).btpo_prev
        · rw [if_pos hcyc] at h; simp at h
        · rw [if_neg hcyc] at h
          exact ih cur (pages cur).btpo_next nld (cur :: cs) ks res hnld h
    · rw [if_neg hig, bt_establish_nextlevel_skip readonly level (pages cur) nld hnld] at h
      split at h
      · simp_all
      rename_i heq
      simp only [Except.ok.injEq] at heq
      subst heq
      by_cases h1 : (readonly && decide ((pages cur).btpo_prev ≠ lc)) = true
      · rw [if_pos h1] at h; simp at h
      · rw [if_neg h1] at h
        by_cases h2 : level.level ≠ (pages cur).level
        · rw [if_pos h2] at h; simp at h
        · rw [if_neg h2] at h
          by_cases h3 : (!tcheck cur) = true
          · rw [if_pos h3] at h; simp at h
          · rw [if_neg h3] at h
            by_cases hcyc : cur = lc ∨ cur = (pages cur).btpo_prev
            · rw [if_pos hcyc] at h; simp at h
            · rw [if_neg hcyc] at h
              by_cases hnext : (pages cur).btpo_next = pNone
              · rw [if_pos hnext] at h
                have := h
                simp only [Except.ok.injEq] at this
                rw [← this]
              · rw [if_neg hnext] at h
                exact ih cur (pages cur).btpo_next nld cs (cur :: ks) res hnld h

theorem bt_level_aux_establishes (pages : Nat → BtWalkPage) (readonly : Bool)
    (level : BtreeLevel) (tcheck : Nat → Bool) :
    ∀ fuel leftcurrent current concerns checked res b d ds,
      bt_level_aux pages readonly level tcheck fuel leftcurrent current
          (BtreeLevel.mk invalidBtreeLevel invalidBlock false) concerns checked
        = Except.ok res →
      firstNonIgnorable pages fuel current = some b →
      (pages b).isleaf = false →
      (pages b).downlinks = d :: ds →
      d ≠ invalidBlock →
      res.1.leftmost = d := by
  intro fuel
  induction fuel with
  | zero =>
    intro lc cur cs ks res b d ds h hfirst hleaf hdown hd
    rw [firstNonIgnorable] at hfirst
    simp at hfirst
  | succ fuel ih =>
    intro lc cur cs ks res b d ds h hfirst hleaf hdown hd
    rw [bt_level_aux] at h
    rw [firstNonIgnorable] at hfirst
    by_cases hig : (pages cur).ignore = true
    · rw [if_pos hig] at h hfirst
      by_cases hnext : (pages cur).btpo_next = pNone
      · rw [if_pos hnext] at h; simp at h
      · rw [if_neg hnext] at h hfirst
        by_cases hcyc : cur = lc ∨ cur = (pages cur).btpo_prev
        · rw [if_pos hcyc] at h; simp at h
        · rw [if_neg hcyc] at h
          exact ih cur (pages cur).btpo_next (cur :: cs) ks res b d ds h hfirst hleaf hdown hd
    · rw [if_neg hig] at h hfirst
      have hb : b = cur := by
        simp only [Option.some.injEq] at hfirst
        exact hfirst.symm
      subst hb
      by_cases h1 : (readonly && decide ((pages b).btpo_prev ≠ pNone)) = true
      · rw [show bt_establish_nextlevel readonly level (pages b)
              (BtreeLevel.mk invalidBtreeLevel invalidBlock false)
            = Except.error BtWalkErr.notLeftmost from by
          unfold bt_establish_nextlevel
          rw [if_pos rfl, if_pos h1]] at h
        split at h <;> simp_all
      · by_cases h2 : (readonly && level.istruerootlevel && !(pages b).isroot) = true
        · rw [show bt_establish_nextlevel readonly level (pages b)
                (BtreeLevel.mk invalidBtreeLevel invalidBlock false)
              = Except.error BtWalkErr.notTrueRoot from by
            unfold bt_establish_nextlevel
            rw [if_pos rfl, if_neg h1, if_pos h2]] at h
          split at h <;> simp_all
        · rw [show bt_establish_nextlevel readonly level (pages b)
                (BtreeLevel.mk invalidBtreeLevel invalidBlock false)
              = Except.ok (BtreeLevel.mk (((pages b).level + U32 - 1) % U32) d false) from by
            unfold bt_establish_nextlevel
            rw [if_pos rfl, if_neg h1, if_neg h2, if_pos (by simp [hleaf]), hdown]
            simp] at h
          split at h
          · simp_all
          rename_i heq
          simp only [Except.ok.injEq] at heq
          subst heq
          by_cases h3 : (readonly && decide ((pages b).btpo_prev ≠ lc)) = true
          · rw [if_pos h3] at h; simp at h
          · rw [if_neg h3] at h
            by_cases h4 : level.level ≠ (pages b).level
            · rw [if_pos h4] at h; simp at h
            · rw [if_neg h4] at h
              by_cases h5 : (!tcheck b) = true
              · rw [if_pos h5] at h; simp at h
              · rw [if_neg h5] at h
                by_cases hcyc : b = lc ∨ b = (pages b).btpo_prev
                · rw [if_pos hcyc] at h; simp at h
                · rw [if_neg hcyc] at h
                  by_cases hnext : (pages b).btpo_next = pNone
                  · rw [if_pos hnext] at h
                    simp only [Except.ok.injEq] at h
                    rw [← h]
                  · rw [if_neg hnext] at h
                    have hst := bt_level_aux_stable pages readonly level tcheck fuel b
                      (pages b).btpo_next
                      (BtreeLevel.mk (((pages b).level + U32 - 1) % U32) d false)
                      cs (b :: ks) res (by simpa using hd) h
                    rw [hst]

/-- C4 (amended): whenever `bt_check_level_from_leftmost` finishes a level
without error, and the first non-ignorable page of that level is an
internal page whose item at `P_FIRSTDATAKEY` (the sentinel item)
references block `d` with `d ≠ InvalidBlockNumber`, the returned
`nextleveldown.leftmost` equals `d`: the next level's leftmost page is
taken from the downlink of the sentinel (first) item of the level's first
non-ignorable page, is established there once, and is never changed by
any later page of the level. -/
theorem bt_next_level_from_first_downlink (pages : Nat → BtWalkPage)
    (readonly : Bool) (tcheck : Nat → Bool) (fuel : Nat) (level : BtreeLevel)
    (res : BtreeLevel × List Nat × List Nat) (b d : Nat) (ds : List Nat)
    (hok : bt_check_level_from_leftmost pages readonly tcheck fuel level = Except.ok res)
    (hfirst : firstNonIgnorable pages fuel level.leftmost = some b)
    (hleaf : (pages b).isleaf = false)
    (hdown : (pages b).downlinks = d :: ds)
    (hd : d ≠ invalidBlock) :
    res.1.leftmost = d :=
  bt_level_aux_establishes pages readonly level tcheck fuel pNone level.leftmost
    [] [] res b d ds hok hfirst hleaf hdown hd

/-- Concrete page store for the C4 counterexample and witness: block 1 is
a non-ignorable rightmost internal page of level 1 whose data items
reference blocks 5 (the sentinel item) and 9 (the first non-sentinel
item); every other block is an ordinary leaf page. -/
def pagesSentinel : Nat → BtWalkPage := fun b =>
  if b = 1 then BtWalkPage.mk false false false 1 0 0 [5, 9]
  else BtWalkPage.mk false true false 0 0 0 []

/-- C4 counterexample to the claim as stated: walking the level whose
leftmost page is block 1 of `pagesSentinel` succeeds and returns block 5
— the downlink of the sentinel (first) item — as the next level's
leftmost page, whereas the first non-sentinel downlink of that page is
block 9.  The walker therefore does not use the first non-sentinel
downlink. -/
theorem bt_next_level_uses_sentinel_downlink :
    (bt_check_level_from_leftmost pagesSentinel false (fun _ => true) 2
        (BtreeLevel.mk 1 1 false)).map (fun r => r.1.leftmost) = Except.ok 5 ∧
    ((pagesSentinel 1).downlinks.drop 1).head? = some 9 ∧
    (5 : Nat) ≠ 9 :=
  ⟨rfl, rfl, by decide⟩

theorem bt_next_level_from_first_downlink_witness :
    firstNonIgnorable pagesSentinel 2 1 = some 1 ∧
    (BtreeLevel.mk 0 5 false, ([] : List Nat), [1]).1.leftmost = 5 :=
  ⟨rfl,
    bt_next_level_from_first_downlink pagesSentinel false (fun _ => true) 2
      (BtreeLevel.mk 1 1 false) (BtreeLevel.mk 0 5 false, [], [1]) 1 5 [9]
      rfl rfl rfl rfl (by decide)⟩

/-! ### The GiST graph walker of verify_gist.c -/

/-- The `ereport(ERROR, ...)` sites of the GiST check: key containment
failures raised inside `gist_check_page_keys` / `gist_check_tuple_keys`
(collapsed into `inconsistent`), the two graph-shape errors of
`gist_check_internal_page`, and `outOfFuel` for exhausted iteration
budget. -/
inductive GistErr where
  | inconsistent
  | noDownlinks
  | mixedReferences
  | outOfFuel
deriving Repr, DecidableEq

/-- One downlink of an internal GiST page as `gist_check_internal_page`
sees it: whether the referenced child page is a leaf (`GistPageIsLeaf`),
and whether `gist_check_page_keys` raises no error for it (`keys_ok`
abstracts the containment test, delegated to the opclass consistent
function, an external collaborator). -/
structure GistChild where
  isleaf : Bool
  keys_ok : Bool
deriving Repr, DecidableEq

/-- The downlink loop of `gist_check_internal_page`: accumulates
`has_leafs` / `has_internals` over the children and aborts at the first
child with inconsistent keys. -/
def gist_check_internal_loop : List GistChild → Bool → Bool → Except GistErr (Bool × Bool)
  | [], has_leafs, has_internals => Except.ok (has_leafs, has_internals)
  | c :: rest, has_leafs, has_internals =>
    let has_leafs2 := has_leafs || c.isleaf
    let has_internals2 := has_internals || !c.isleaf
    if !c.keys_ok then Except.error GistErr.inconsistent
    else gist_check_internal_loop rest has_leafs2 has_internals2

/-- `gist_check_internal_page` from verify_gist.c: scans the page's
downlinks, raises "internal page has no downlink references" when
neither flag was set, raises "page references both internal and leaf
pages" when `has_leafs == has_internals`, and otherwise returns
`has_internals`.  (The non-fatal LOG for invalid tuples does not affect
control flow and is omitted.) -/
def gist_check_internal_page (children : List GistChild) : Except GistErr Bool :=
  match gist_check_internal_loop children false false with
  | Except.error e => Except.error e
  | Except.ok flags =>
    if !(flags.1 || flags.2) then Except.error GistErr.noDownlinks
    else if flags.1 == flags.2 then Except.error GistErr.mixedReferences
    else Except.ok flags.2

theorem gist_check_internal_loop_ok (L : List GistChild) :
    ∀ has_leafs has_internals, (∀ c ∈ L, c.keys_ok = true) →
      gist_check_internal_loop L has_leafs has_internals
        = Except.ok (has_leafs || L.any (fun c => c.isleaf),
                     has_internals || L.any (fun c => !c.isleaf)) := by
  induction L with
  | nil => intro hl hi hko; simp [gist_check_internal_loop]
  | cons c rest ih =>
    intro hl hi hko
    have hc : c.keys_ok = true := hko c (by simp)
    rw [gist_check_internal_loop, if_neg (by simp [hc]),
      ih _ _ (fun z hz => hko z (List.mem_cons_of_mem c hz))]
    simp [Bool.or_assoc]

theorem gist_check_internal_page_eval (children : List GistChild)
    (hko : ∀ c ∈ children, c.keys_ok = true) :
    gist_check_internal_page children
      = (if children.any (fun c => c.isleaf) || children.any (fun c => !c.isleaf) then
          (if children.any (fun c => c.isleaf) == children.any (fun c => !c.isleaf)
           then Except.error GistErr.mixedReferences
           else Except.ok (children.any (fun c => !c.isleaf)))
         else Except.error GistErr.noDownlinks) := by
  unfold gist_check_internal_page
  rw [gist_check_internal_loop_ok children false false hko]
  cases hA : children.any (fun c => c.isleaf) <;>
    cases hB : children.any (fun c => !c.isleaf) <;> simp

/-- A GiST page as the graph walker reads it: `GistPageIsLeaf`, the child
block numbers referenced by its index tuples, the page LSN
(`BufferGetLSNAtomic`), and the split bookkeeping consulted by
`pushStackIfSplited` (`GistFollowRight`, `GistPageGetNSN`, the special
area's right link). -/
structure GistPage where
  isleaf : Bool
  children : List Nat
  lsn : Nat
  followRight : Bool
  nsn : Nat
  rightlink : Nat
deriving Repr, DecidableEq

/-- The `GistScanItem` work-list entry of verify_gist.c: the parent's LSN
at scheduling time, and the block to visit. -/
structure GistScanItem where
  parentlsn : Nat
  blkno : Nat
deriving Repr, DecidableEq

/-- `GIST_ROOT_BLKNO`. -/
def GIST_ROOT_BLKNO : Nat := 0

/-- `pushStackIfSplited` from verify_gist.c: when the visited page is not
the root, the scheduling-time parent LSN is valid (`XLogRecPtrIsInvalid`
is `== 0`), the page shows a split since scheduling (`GistFollowRight`
set, or parent LSN older than the page's NSN) and the right link is
valid, the right sibling is scheduled with the same parent LSN.  Returns
the work items that are inserted in front of the remaining stack. -/
def pushStackIfSplited (page : GistPage) (item : GistScanItem) : List GistScanItem :=
  if item.blkno ≠ GIST_ROOT_BLKNO ∧ item.parentlsn ≠ 0 ∧
      (page.followRight = true ∨ item.parentlsn < page.nsn) ∧
      page.rightlink ≠ invalidBlock then
    [GistScanItem.mk item.parentlsn page.rightlink]
  else []

/-- The `while (stack)` loop of `gist_check_keys_consistency`.
`keys_ok p c` abstracts `gist_check_page_keys` for parent block `p` and
child block `c` (`true` = no containment error).  A leaf page gets no
checks (only the root can legally be one).  For an internal page the
split check may schedule the right sibling, then
`gist_check_internal_page` runs on the children, and when it returns
`true` every child is scheduled; the C code pushes each child directly
behind the current stack head, so the children end up in reverse item
order in front of the previously pushed items.  Returns the visited
blocks in visit order. -/
def gist_check_aux (pages : Nat → GistPage) (keys_ok : Nat → Nat → Bool) :
    Nat → List GistScanItem → List Nat → Except GistErr (List Nat)
  | _, [], visited => Except.ok visited.reverse
  | 0, _ :: _, _ => Except.error GistErr.outOfFuel
  | fuel + 1, item :: rest, visited =>
    if (pages item.blkno).isleaf then
      gist_check_aux pages keys_ok fuel rest (item.blkno :: visited)
    else
      match gist_check_internal_page
          ((pages item.blkno).children.map
            (fun c => GistChild.mk (pages c).isleaf (keys_ok item.blkno c))) with
      | Except.error e => Except.error e
      | Except.ok has_internals =>
        let rest1 := pushStackIfSplited (pages item.blkno) item ++ rest
        let rest2 := if has_internals then
            ((pages item.blkno).children.reverse.map
              (fun c => GistScanItem.mk (pages item.blkno).lsn c)) ++ rest1
          else rest1
        gist_check_aux pages keys_ok fuel rest2 (item.blkno :: visited)

/-- `gist_check_keys_consistency` from verify_gist.c: starts from
`GIST_ROOT_BLKNO` with a `palloc0`-zeroed scan item. -/
def gist_check_keys_consistency (pages : Nat → GistPage)
    (keys_ok : Nat → Nat → Bool) (fuel : Nat) : Except GistErr (List Nat) :=
  gist_check_aux pages keys_ok fuel [GistScanItem.mk 0 GIST_ROOT_BLKNO] []

/-- C6: for an internal GiST page whose child key-containment tests pass
(so that no containment error preempts the shape checks): a fatal signal
is raised when the page has zero downlinks (`noDownlinks`) or when its
referenced children include both leaf and internal pages
(`mixedReferences`); when at least one child exists and the children are
homogeneous, the check passes, and the walker schedules the page's
children for later visiting exactly when the children are internal pages
(last two conjuncts: `gist_check_internal_page` returns `true` iff the
children are internal and nonempty, and one `gist_check_aux` step on such
a page pushes the child work items iff that holds, continuing without any
pushed children otherwise). -/
theorem gist_internal_page_homogeneity (children : List GistChild)
    (hko : ∀ c ∈ children, c.keys_ok = true) :
    (children = [] → gist_check_internal_page children = Except.error GistErr.noDownlinks) ∧
    ((∃ c ∈ children, c.isleaf = true) → (∃ c ∈ children, c.isleaf = false) →
      gist_check_internal_page children = Except.error GistErr.mixedReferences) ∧
    (children ≠ [] → (∀ c ∈ children, c.isleaf = true) →
      gist_check_internal_page children = Except.ok false) ∧
    (children ≠ [] → (∀ c ∈ children, c.isleaf = false) →
      gist_check_internal_page children = Except.ok true) ∧
    (gist_check_internal_page children = Except.ok true ↔
      (children ≠ [] ∧ ∀ c ∈ children, c.isleaf = false)) ∧
    (∀ (pages : Nat → GistPage) (keys_ok : Nat → Nat → Bool)
        (fuel : Nat) (item : GistScanItem) (rest : List GistScanItem)
        (visited : List Nat),
      (pages item.blkno).isleaf = false →
      (pages item.blkno).children.map
          (fun c => GistChild.mk (pages c).isleaf (keys_ok item.blkno c)) = children →
      children ≠ [] →
      ((∀ c ∈ children, c.isleaf = false) →
        gist_check_aux pages keys_ok (fuel + 1) (item :: rest) visited
          = gist_check_aux pages keys_ok fuel
              (((pages item.blkno).children.reverse.map
                  (fun c => GistScanItem.mk (pages item.blkno).lsn c))
                ++ (pushStackIfSplited (pages item.blkno) item ++ rest))
              (item.blkno :: visited)) ∧
      ((∀ c ∈ children, c.isleaf = true) →
        gist_check_aux pages keys_ok (fuel + 1) (item :: rest) visited
          = gist_check_aux pages keys_ok fuel
              (pushStackIfSplited (pages item.blkno) item ++ rest)
              (item.blkno :: visited))) := by
  have heval := gist_check_internal_page_eval children hko
  have h4 : children ≠ [] → (∀ c ∈ children, c.isleaf = false) →
      gist_check_internal_page children = Except.ok true := by
    intro hne hall
    have hA : children.any (fun c => c.isleaf) = false := by
      rw [List.any_eq_false]
      intro c hc
      simp [hall c hc]
    have hB : children.any (fun c => !c.isleaf) = true := by
      rcases children with _ | ⟨c, rest⟩
      · exact absurd rfl hne
      · exact List.any_eq_true.mpr ⟨c, by simp, by simp [hall c (by simp)]⟩
    rw [heval, hA, hB]
    simp
  have h3 : children ≠ [] → (∀ c ∈ children, c.isleaf = true) →
      gist_check_internal_page children = Except.ok false := by
    intro hne hall
    have hA : children.any (fun c => c.isleaf) = true := by
      rcases children with _ | ⟨c, rest⟩
      · exact absurd rfl hne
      · exact List.any_eq_true.mpr ⟨c, by simp, by simp [hall c (by simp)]⟩
    have hB : children.any (fun c => !c.isleaf) = false := by
      rw [List.any_eq_false]
      intro c hc
      simp [hall c hc]
    rw [heval, hA, hB]
    simp
  refine ⟨?_, ?_, h3, h4, ?_, ?_⟩
  · intro hnil
    subst hnil
    simp at heval
    exact heval
  · intro h1 h2
    obtain ⟨c1, hc1, hl1⟩ := h1
    obtain ⟨c2, hc2, hl2⟩ := h2
    have hA : children.any (fun c => c.isleaf) = true :=
      List.any_eq_true.mpr ⟨c1, hc1, by simp [hl1]⟩
    have hB : children.any (fun c => !c.isleaf) = true :=
      List.any_eq_true.mpr ⟨c2, hc2, by simp [hl2]⟩
    rw [heval, hA, hB]
    simp
  · constructor
    · intro hok
      by_cases hB : children.any (fun c => !c.isleaf) = true
      · by_cases hA : children.any (fun c => c.isleaf) = true
        · rw [heval, hA, hB] at hok
          simp at hok
        · replace hA : children.any (fun c => c.isleaf) = false := by
            simpa using hA
          constructor
          · intro hnil
            subst hnil
            simp at hB
          · intro c hc
            simpa using List.any_eq_false.mp hA c hc
      · replace hB : children.any (fun c => !c.isleaf) = false := by
          simpa using hB
        rw [heval, hB] at hok
        cases hA : children.any (fun c => c.isleaf) <;> rw [hA] at hok <;> simp at hok
    · intro h
      exact h4 h.1 h.2
  · intro pages keys_ok fuel item rest visited hleaf hmap hne
    constructor
    · intro hall
      rw [gist_check_aux, if_neg (by simp [hleaf]), hmap, h4 hne hall]
      simp
    · intro hall
      rw [gist_check_aux, if_neg (by simp [hleaf]), hmap, h3 hne hall]
      simp

theorem gist_internal_page_homogeneity_witness :
    (∀ c ∈ [GistChild.mk false true], c.keys_ok = true) ∧
    gist_check_internal_page [GistChild.mk false true] = Except.ok true :=
  ⟨by decide,
    (gist_internal_page_homogeneity [GistChild.mk false true] (by decide)).2.2.2.1
      (by decide) (by decide)⟩


/-- C10: if the root page of a GiST index is a leaf page (a single-page
index), the graph check visits only the root, performs no homogeneity and
no parent/child containment checks (the result holds for every `keys_ok`
oracle and arbitrary contents of all pages), and returns without
reporting corruption. -/
theorem gist_single_page_always_passes (pages : Nat → GistPage)
    (keys_ok : Nat → Nat → Bool) (fuel : Nat)
    (hfuel : 1 ≤ fuel) (hroot : (pages GIST_ROOT_BLKNO).isleaf = true) :
    gist_check_keys_consistency pages keys_ok fuel = Except.ok [GIST_ROOT_BLKNO] := by
  rcases fuel with _ | f
  · omega
  · unfold gist_check_keys_consistency
    rw [gist_check_aux]
    rw [if_pos hroot]
    rw [gist_check_aux]
    rfl

theorem gist_single_page_always_passes_witness :
    ((fun _ : Nat => GistPage.mk true [] 0 false 0 0) GIST_ROOT_BLKNO).isleaf = true ∧
    gist_check_keys_consistency (fun _ => GistPage.mk true [] 0 false 0 0)
        (fun _ _ => false) 1 = Except.ok [GIST_ROOT_BLKNO] :=
  ⟨rfl,
    gist_single_page_always_passes (fun _ => GistPage.mk true [] 0 false 0 0)
      (fun _ _ => false) 1 (by decide) rfl⟩

/-! ### The heap-presence callback of verify_nbtree.c -/

/-- The `ereport(ERROR, ...)` of `bt_tuple_present_callback`. -/
inductive BtHeapErr where
  | lacksMatchingIndexTuple
deriving Repr, DecidableEq

/-- `bt_tuple_present_callback` from verify_nbtree.c.  `precedes`
abstracts `TransactionIdPrecedes` (an external collaborator); `xmin` is
the row's creation marker (`HeapTupleHeaderGetXmin`) and `txMin` the
recorded cutoff (`TransactionXmin`); `itup` stands for the index tuple
bytes rebuilt from the row's values by `index_form_tuple` (external).
The returned number is the increment applied to
`state->heaptuplespresent`: `0` when the row is exempt and returns
without testing, `1` when the row was probed and found present. -/
def bt_tuple_present_callback (hash_any : List Nat → Nat)
    (precedes : Nat → Nat → Bool) (readonly : Bool) (xmin txMin : Nat)
    (filter : bloom_filter) (itup : List Nat) : Except BtHeapErr Nat :=
  if !readonly && !precedes xmin txMin then Except.ok 0
  else if bloom_lacks_element hash_any filter itup then
    Except.error BtHeapErr.lacksMatchingIndexTuple
  else Except.ok 1

/-- C7: in non-strict mode (`readonly = false`), a row whose creation
marker does not precede the recorded cutoff is exempt: the callback
returns without testing (and without counting) it.  Every other row —
and every row in strict mode — is probed against the Bloom filter, and
the fatal "lacks matching index tuple" signal is raised exactly when the
filter reports the reconstructed entry definitely absent. -/
theorem tuple_present_callback_spec (hash_any : List Nat → Nat)
    (precedes : Nat → Nat → Bool) (readonly : Bool) (xmin txMin : Nat)
    (filter : bloom_filter) (itup : List Nat) :
    (readonly = false → precedes xmin txMin = false →
      bt_tuple_present_callback hash_any precedes readonly xmin txMin filter itup
        = Except.ok 0) ∧
    ((readonly = true ∨ precedes xmin txMin = true) →
      ((bt_tuple_present_callback hash_any precedes readonly xmin txMin filter itup
          = Except.error BtHeapErr.lacksMatchingIndexTuple)
        ↔ bloom_lacks_element hash_any filter itup = true) ∧
      (bloom_lacks_element hash_any filter itup = false →
        bt_tuple_present_callback hash_any precedes readonly xmin txMin filter itup
          = Except.ok 1)) := by
  unfold bt_tuple_present_callback
  constructor
  · intro hro hpr
    rw [hro, hpr]
    simp
  · intro hor
    have hcond : (!readonly && !precedes xmin txMin) = false := by
      rcases hor with h | h <;> simp [h]
    rw [hcond]
    cases hl : bloom_lacks_element hash_any filter itup <;> simp [hl]

theorem tuple_present_callback_spec_witness :
    (true = true ∨ (fun _ _ : Nat => false) 0 0 = true) ∧
    ((bt_tuple_present_callback (fun _ => 0) (fun _ _ => false) true 0 0
        (bloom_filter.mk 1 0 8 [0]) [1]
        = Except.error BtHeapErr.lacksMatchingIndexTuple)
      ↔ bloom_lacks_element (fun _ => 0) (bloom_filter.mk 1 0 8 [0]) [1] = true) :=
  ⟨Or.inl rfl,
    ((tuple_present_callback_spec (fun _ => 0) (fun _ _ => false) true 0 0
      (bloom_filter.mk 1 0 8 [0]) [1]).2 (Or.inl rfl)).1⟩
